import Mathlib

/-!
Verification of the `CohereBedrockEmbeddings` adapter: a shallow embedding of
the request construction, response-schema normalization, batching and the
embed-documents / embed-query operations, together with theorems settling the
specification claims about them.
-/

namespace CohereBedrockEmbeddings

/-- A JSON value, as produced by parsing the remote response body.
Numbers are modelled as integers: no claim inspects numeric content. -/
inductive Json where
  | null : Json
  | bool (b : Bool) : Json
  | num (n : Int) : Json
  | str (s : String) : Json
  | arr (xs : List Json) : Json
  | obj (fields : List (String × Json)) : Json

/-- First-match lookup of a key in a parsed JSON object (parsed objects have
unique keys). -/
def lookupField : List (String × Json) → String → Option Json
  | [], _ => none
  | (k, v) :: fields, key => if k = key then some v else lookupField fields key

/-- Escaping of a single character, as done by the JSON serializer used in the
error message. -/
def escapeChar (c : Char) : List Char :=
  if c = '\x22' then ['\\', '\x22']
  else if c = '\\' then ['\\', '\\']
  else if c = '\n' then ['\\', 'n']
  else [c]

/-- Serialization of a string body, escaping each character. -/
def escapeString (s : String) : String :=
  String.mk (s.data.map escapeChar).flatten

mutual

/-- The serialization of a JSON value (models the serializer applied to the
raw response when building the malformed-response error message). -/
def stringifyJson : Json → String
  | Json.null => "null"
  | Json.bool true => "true"
  | Json.bool false => "false"
  | Json.num n => toString n
  | Json.str s => "\x22" ++ escapeString s ++ "\x22"
  | Json.arr xs => "[" ++ stringifyArr xs ++ "]"
  | Json.obj fields => "\x7b" ++ stringifyObj fields ++ "\x7d"

/-- Serialization of the elements of a JSON array, comma separated. -/
def stringifyArr : List Json → String
  | [] => ""
  | [j] => stringifyJson j
  | j :: js => stringifyJson j ++ "," ++ stringifyArr js

/-- Serialization of the fields of a JSON object, comma separated. -/
def stringifyObj : List (String × Json) → String
  | [] => ""
  | [(k, v)] => "\x22" ++ escapeString k ++ "\x22:" ++ stringifyJson v
  | (k, v) :: fields =>
    "\x22" ++ escapeString k ++ "\x22:" ++ stringifyJson v ++ "," ++ stringifyObj fields

end

/-- A runtime error raised while extracting embeddings: either a bare type
error raised by a primitive operation (property access on null, the
membership operator on a non-object), or an error constructed with an
explicit message. -/
inductive JsError where
  | typeError (msg : String) : JsError
  | jsError (msg : String) : JsError

/-- Property access `value.key`: yields the field for objects, an absent
value (undefined) for non-null non-objects, and raises a type error on null. -/
def getProp : Json → String → Except JsError (Option Json)
  | Json.null, key =>
    Except.error (JsError.typeError ("Cannot read properties of null, reading " ++ key))
  | Json.obj fields, key => Except.ok (lookupField fields key)
  | _, _ => Except.ok none

/-- The test `typeof x === "object"` on a possibly absent value: true exactly
for null, arrays and objects. -/
def jsTypeofObject : Option Json → Bool
  | some Json.null => true
  | some (Json.arr _) => true
  | some (Json.obj _) => true
  | _ => false

/-- The test `Array.isArray(x)` on a possibly absent value. -/
def jsIsArray : Option Json → Bool
  | some (Json.arr _) => true
  | _ => false

/-- The membership test for key `float` followed by the access of that key:
for objects, the field if present; for arrays, absent; for every other value
the membership operator raises a type error. -/
def jsInFloat : Option Json → Except JsError (Option Json)
  | some (Json.obj fields) => Except.ok (lookupField fields "float")
  | some (Json.arr _) => Except.ok none
  | _ =>
    Except.error (JsError.typeError "Cannot use the membership operator to search for float")

/-- The error thrown on the fall-through path of `extractEmbeddings`: it
carries the serialized raw response. -/
def unexpectedFormatError (response : Json) : JsError :=
  JsError.jsError ("Unexpected Cohere response format: " ++ stringifyJson response)

/-- `extractEmbeddings`, translated from the source: read the `embeddings`
field; if it is a non-array object, return its `float` field when present
(the membership test raising a type error when the field value is null);
otherwise, if it is an array, return it; otherwise throw an error carrying
the serialized response. -/
def extractEmbeddings (response : Json) : Except JsError Json :=
  match getProp response "embeddings" with
  | Except.error e => Except.error e
  | Except.ok emb =>
    match
      (if jsTypeofObject emb && !(jsIsArray emb) then jsInFloat emb
       else Except.ok none : Except JsError (Option Json)) with
    | Except.error e => Except.error e
    | Except.ok (some v) => Except.ok v
    | Except.ok none =>
      match emb with
      | some (Json.arr xs) => Except.ok (Json.arr xs)
      | _ => Except.error (unexpectedFormatError response)

/-- The `embeddings` field of a parsed response, at the JSON level (absent
when the response is not an object or lacks the key). -/
def embeddingsOf : Json → Option Json
  | Json.obj fields => lookupField fields "embeddings"
  | _ => none

/-- The effective batch size computed by the constructor from the requested
one: the minimum of the request (default 96) and 96. -/
def effectiveBatchSize (requested : Option Int) : Int :=
  min (requested.getD 96) 96

/-- Structural recursion core of `batchTexts`: the source loop advances its
index by `batchSize` each iteration, so dropping `batchSize` elements per
step; the fuel argument bounds the number of iterations (the input length
suffices whenever `batchSize` is at least one). -/
def batchTextsGo (batchSize : Nat) : Nat → List α → List (List α)
  | 0, _ => []
  | _ + 1, [] => []
  | fuel + 1, t :: ts =>
    (t :: ts).take batchSize :: batchTextsGo batchSize fuel ((t :: ts).drop batchSize)

/-- `batchTexts`, translated from the source: split the input into contiguous
chunks of `batchSize` elements, the last one possibly shorter. -/
def batchTexts (batchSize : Nat) (texts : List α) : List (List α) :=
  batchTextsGo batchSize texts.length texts

/-- The slice operation of the host language: negative bounds count from the
end of the list, and both bounds are clamped to the list length. -/
def jsSlice (l : List α) (s e : Int) : List α :=
  let len : Int := l.length
  let s1 : Int := if s < 0 then max (len + s) 0 else min s len
  let e1 : Int := if e < 0 then max (len + e) 0 else min e len
  (l.drop s1.toNat).take (e1.toNat - s1.toNat)

/-- The source batching loop, step by step: index `i` starts at 0 and is
increased by `batchSize` after pushing `texts.slice(i, i + batchSize)`; a
fuel argument makes the possibly diverging loop total, returning `none`
exactly when the loop has not finished within the given number of
iterations. -/
def batchTextsRunGo (batchSize : Int) (texts : List α) :
    Nat → Int → List (List α) → Option (List (List α))
  | 0, _, _ => none
  | fuel + 1, i, batches =>
    if i < (texts.length : Int) then
      batchTextsRunGo batchSize texts fuel (i + batchSize)
        (batches ++ [jsSlice texts i (i + batchSize)])
    else some batches

/-- The source batching loop run from the initial state with the given fuel. -/
def batchTextsRun (batchSize : Int) (texts : List α) (fuel : Nat) :
    Option (List (List α)) :=
  batchTextsRunGo batchSize texts fuel 0 []

/-- An embedding vector (numeric content is never inspected by any claim). -/
abbrev Vec := List Int

/-- The remote call made for one batch, already wrapped in the bounded-retry
caller: given the batch and the input type, it either produces the vectors of
the batch or fails (modelling retry-budget exhaustion). -/
abbrev Oracle := List String → String → Except String (List Vec)

/-- The loop of `embedDocuments`, translated from the source: for each batch
in order, invoke the remote call and append its vectors to the accumulator;
on the first failure, the whole operation fails. The second component
records the remote calls issued, in order, with the input type used. -/
def embedLoop (call : Oracle) (inputType : String) :
    List (List String) → List Vec → Except String (List Vec) × List (List String × String)
  | [], allEmbeddings => (Except.ok allEmbeddings, [])
  | batch :: rest, allEmbeddings =>
    match call batch inputType with
    | Except.error e => (Except.error e, [(batch, inputType)])
    | Except.ok embeddings =>
      let r := embedLoop call inputType rest (allEmbeddings ++ embeddings)
      (r.1, (batch, inputType) :: r.2)

/-- `embedDocuments`, translated from the source: return immediately on empty
input, otherwise batch the documents and run the sequential loop with the
configured document input type. The second component is the list of remote
calls issued. -/
def embedDocuments (call : Oracle) (batchSize : Nat) (inputTypeDocument : String)
    (documents : List String) : Except String (List Vec) × List (List String × String) :=
  if documents.length = 0 then (Except.ok [], [])
  else embedLoop call inputTypeDocument (batchTexts batchSize documents) []

/-- `embedQuery`, translated from the source: invoke the remote call on the
one-element list with the configured query input type and take the element
at index 0 of the result, which is absent (`none`) when the result is empty.
The second component is the list of remote calls issued. -/
def embedQuery (call : Oracle) (inputTypeQuery : String) (query : String) :
    Except String (Option Vec) × List (List String × String) :=
  match call [query] inputTypeQuery with
  | Except.error e => (Except.error e, [([query], inputTypeQuery)])
  | Except.ok embeddings => (Except.ok embeddings.head?, [([query], inputTypeQuery)])

/-- Text cleaning performed by `invokeCohere` before sending: every newline
character is replaced by a single space. -/
def cleanText (text : String) : String :=
  String.mk (text.data.map (fun c => if c = '\n' then ' ' else c))

/-- The request body built by `invokeCohere`. -/
structure CohereRequestBody where
  texts : List String
  input_type : String
  truncate : String

/-- The model-invocation command built by `invokeCohere`: the configured
model identifier and the JSON request body. -/
structure InvokeModelCommand where
  modelId : String
  body : CohereRequestBody
  contentType : String
  accept : String

/-- The request-construction part of `invokeCohere`, translated from the
source: clean the texts, build the body from the cleaned texts, the given
input type and the configured truncation policy, and address the command to
the configured model identifier. -/
def invokeCohereCommand (model trunc : String) (texts : List String)
    (inputType : String) : InvokeModelCommand :=
  ⟨model, ⟨texts.map cleanText, inputType, trunc⟩, "application/json", "application/json"⟩

theorem batchTextsGo_fuel (b : Nat) (hb : 1 ≤ b) :
    ∀ (fuel1 fuel2 : Nat) (ts : List α), ts.length ≤ fuel1 → ts.length ≤ fuel2 →
      batchTextsGo b fuel1 ts = batchTextsGo b fuel2 ts := by
  intro fuel1
  induction fuel1 with
  | zero =>
    intro fuel2 ts h1 h2
    have hts : ts = [] := List.length_eq_zero.mp (Nat.le_zero.mp h1)
    subst hts
    cases fuel2 <;> rfl
  | succ n ih =>
    intro fuel2 ts h1 h2
    cases ts with
    | nil => cases fuel2 <;> rfl
    | cons t ts =>
      cases fuel2 with
      | zero => simp at h2
      | succ m =>
        simp only [batchTextsGo]
        refine congrArg _ ?_
        have hd1 : ((t :: ts).drop b).length ≤ n := by
          simp only [List.length_drop, List.length_cons] at *
          omega
        have hd2 : ((t :: ts).drop b).length ≤ m := by
          simp only [List.length_drop, List.length_cons] at *
          omega
        exact ih m _ hd1 hd2

theorem batchTexts_cons (b : Nat) (hb : 1 ≤ b) (t : α) (ts : List α) :
    batchTexts b (t :: ts) = (t :: ts).take b :: batchTexts b ((t :: ts).drop b) := by
  simp only [batchTexts, List.length_cons, batchTextsGo]
  refine congrArg _ ?_
  refine batchTextsGo_fuel b hb _ _ _ ?_ le_rfl
  simp only [List.length_drop, List.length_cons]
  omega

theorem batchTextsGo_flatten (b : Nat) (hb : 1 ≤ b) :
    ∀ (fuel : Nat) (ts : List α), ts.length ≤ fuel →
      (batchTextsGo b fuel ts).flatten = ts := by
  intro fuel
  induction fuel with
  | zero =>
    intro ts h
    have hts : ts = [] := List.length_eq_zero.mp (Nat.le_zero.mp h)
    subst hts; rfl
  | succ n ih =>
    intro ts h
    cases ts with
    | nil => rfl
    | cons t ts =>
      simp only [batchTextsGo, List.flatten_cons]
      rw [ih _ (by simp only [List.length_drop, List.length_cons] at *; omega)]
      exact List.take_append_drop b (t :: ts)

theorem batchTexts_flatten (b : Nat) (hb : 1 ≤ b) (ts : List α) :
    (batchTexts b ts).flatten = ts :=
  batchTextsGo_flatten b hb ts.length ts le_rfl

theorem ceil_div_step (b n : Nat) (hb : 1 ≤ b) (hn : 1 ≤ n) :
    (n + b - 1) / b = (n - b + b - 1) / b + 1 := by
  rcases le_or_lt b n with h | h
  · have h1 : n - b + b - 1 = n - 1 := by omega
    have h2 : n + b - 1 = (n - 1) + b := by omega
    rw [h1, h2, Nat.add_div_right _ hb]
  · have h1 : n - b + b - 1 = b - 1 := by omega
    have h2 : (b - 1) / b = 0 := Nat.div_eq_of_lt (by omega)
    rw [h1, h2]
    refine Nat.div_eq_of_lt_le (by omega) (by omega)

theorem batchTextsGo_length (b : Nat) (hb : 1 ≤ b) :
    ∀ (fuel : Nat) (ts : List α), ts.length ≤ fuel →
      (batchTextsGo b fuel ts).length = (ts.length + b - 1) / b := by
  intro fuel
  induction fuel with
  | zero =>
    intro ts h
    have hts : ts = [] := List.length_eq_zero.mp (Nat.le_zero.mp h)
    subst hts
    simp only [batchTextsGo, List.length_nil]
    exact (Nat.div_eq_of_lt (by omega)).symm
  | succ n ih =>
    intro ts h
    cases ts with
    | nil =>
      simp only [batchTextsGo, List.length_nil]
      exact (Nat.div_eq_of_lt (by omega)).symm
    | cons t ts =>
      simp only [batchTextsGo, List.length_cons]
      rw [ih _ (by simp only [List.length_drop, List.length_cons] at *; omega)]
      rw [List.length_drop, List.length_cons]
      exact (ceil_div_step b (ts.length + 1) hb (by omega)).symm

theorem batchTexts_length (b : Nat) (hb : 1 ≤ b) (ts : List α) :
    (batchTexts b ts).length = (ts.length + b - 1) / b :=
  batchTextsGo_length b hb ts.length ts le_rfl

theorem batchTextsGo_chunk_le (b : Nat) (hb : 1 ≤ b) :
    ∀ (fuel : Nat) (ts : List α) (c : List α), ts.length ≤ fuel →
      c ∈ batchTextsGo b fuel ts → c.length ≤ b := by
  intro fuel
  induction fuel with
  | zero =>
    intro ts c h hc
    have hts : ts = [] := List.length_eq_zero.mp (Nat.le_zero.mp h)
    subst hts
    simp [batchTextsGo] at hc
  | succ n ih =>
    intro ts c h hc
    cases ts with
    | nil => simp [batchTextsGo] at hc
    | cons t ts =>
      simp only [batchTextsGo, List.mem_cons] at hc
      rcases hc with hc | hc
      · subst hc
        simp only [List.length_take]
        exact Nat.min_le_left _ _
      · exact ih _ c (by simp only [List.length_drop, List.length_cons] at *; omega) hc

theorem batchTextsGo_eq_nil_iff (b : Nat) :
    ∀ (fuel : Nat) (ts : List α), ts.length ≤ fuel →
      (batchTextsGo b fuel ts = [] ↔ ts = []) := by
  intro fuel
  induction fuel with
  | zero =>
    intro ts h
    have hts : ts = [] := List.length_eq_zero.mp (Nat.le_zero.mp h)
    subst hts
    simp [batchTextsGo]
  | succ n ih =>
    intro ts h
    cases ts with
    | nil => simp [batchTextsGo]
    | cons t ts => simp [batchTextsGo]

theorem batchTextsGo_dropLast (b : Nat) (hb : 1 ≤ b) :
    ∀ (fuel : Nat) (ts : List α) (c : List α), ts.length ≤ fuel →
      c ∈ (batchTextsGo b fuel ts).dropLast → c.length = b := by
  intro fuel
  induction fuel with
  | zero =>
    intro ts c h hc
    have hts : ts = [] := List.length_eq_zero.mp (Nat.le_zero.mp h)
    subst hts
    simp [batchTextsGo] at hc
  | succ n ih =>
    intro ts c h hc
    cases ts with
    | nil => simp [batchTextsGo] at hc
    | cons t ts =>
      simp only [batchTextsGo] at hc
      have hdl : ((t :: ts).drop b).length ≤ n := by
        simp only [List.length_drop, List.length_cons] at *
        omega
      cases hrec : batchTextsGo b n ((t :: ts).drop b) with
      | nil => rw [hrec] at hc; simp at hc
      | cons r rs =>
        rw [hrec] at hc
        simp only [List.dropLast_cons₂, List.mem_cons] at hc
        rcases hc with hc | hc
        · subst hc
          have hne : (t :: ts).drop b ≠ [] := by
            intro hnil
            rw [(batchTextsGo_eq_nil_iff b n _ hdl).mpr hnil] at hrec
            exact List.noConfusion hrec
          have hlen : b < (t :: ts).length := by
            have := List.length_lt_of_drop_ne_nil hne
            exact this
          simp only [List.length_take]
          omega
        · exact ih _ c hdl (by rw [hrec]; exact hc)

theorem batchTexts_chunk_le (b : Nat) (hb : 1 ≤ b) (ts : List α) (c : List α)
    (hc : c ∈ batchTexts b ts) : c.length ≤ b :=
  batchTextsGo_chunk_le b hb ts.length ts c le_rfl hc

theorem batchTexts_dropLast (b : Nat) (hb : 1 ≤ b) (ts : List α) (c : List α)
    (hc : c ∈ (batchTexts b ts).dropLast) : c.length = b :=
  batchTextsGo_dropLast b hb ts.length ts c le_rfl hc

theorem batchTexts_eq_cons (b : Nat) (hb : 1 ≤ b) (l : List α) (hl : l ≠ []) :
    batchTexts b l = l.take b :: batchTexts b (l.drop b) := by
  cases l with
  | nil => exact absurd rfl hl
  | cons t ts => exact batchTexts_cons b hb t ts

theorem jsSlice_take_drop (l : List α) (i b : Nat) (hb : 1 ≤ b) (hi : i < l.length) :
    jsSlice l (i : Int) ((i : Int) + (b : Int)) = (l.drop i).take b := by
  simp only [jsSlice]
  rw [if_neg (show ¬((i : Int) < 0) by omega),
    if_neg (show ¬((i : Int) + (b : Int) < 0) by omega)]
  have h1 : (min (i : Int) ((l.length : Nat) : Int)).toNat = i := by omega
  have h2 : (min ((i : Int) + (b : Int)) ((l.length : Nat) : Int)).toNat =
      min (i + b) l.length := by omega
  rw [h1, h2]
  rcases le_or_lt (i + b) l.length with h | h
  · rw [min_eq_left h]
    congr 1
    omega
  · rw [min_eq_right (by omega)]
    rw [List.take_of_length_le (le_of_eq (List.length_drop i l))]
    rw [List.take_of_length_le (by rw [List.length_drop]; omega)]

theorem batchTextsRunGo_agree (b : Nat) (hb : 1 ≤ b) (ts : List α) :
    ∀ (fuel : Nat) (i : Nat) (batches : List (List α)),
      ts.length - i < fuel →
      batchTextsRunGo (b : Int) ts fuel (i : Int) batches =
        some (batches ++ batchTexts b (ts.drop i)) := by
  intro fuel
  induction fuel with
  | zero => intro i batches h; omega
  | succ n ih =>
    intro i batches h
    simp only [batchTextsRunGo]
    rcases lt_or_le i ts.length with hi | hi
    · rw [if_pos (by exact_mod_cast hi)]
      rw [jsSlice_take_drop ts i b hb hi]
      rw [show (i : Int) + (b : Int) = ((i + b : Nat) : Int) by push_cast; ring]
      rw [ih (i + b) _ (by omega)]
      have hne : ts.drop i ≠ [] := by
        intro hnil
        have hlen := congrArg List.length hnil
        simp only [List.length_drop, List.length_nil] at hlen
        omega
      rw [batchTexts_eq_cons b hb (ts.drop i) hne]
      rw [List.drop_drop]
      simp [List.append_assoc]
    · rw [if_neg (by exact_mod_cast not_lt.mpr hi)]
      rw [List.drop_of_length_le hi]
      simp [batchTexts, batchTextsGo]

theorem batchTextsRun_agree (b : Nat) (hb : 1 ≤ b) (ts : List α) :
    batchTextsRun (b : Int) ts (ts.length + 1) = some (batchTexts b ts) := by
  have h := batchTextsRunGo_agree b hb ts (ts.length + 1) 0 [] (by omega)
  simpa [batchTextsRun] using h

theorem batchTextsRunGo_none (b : Int) (hbneg : b ≤ 0) (ts : List α) (hts : ts ≠ []) :
    ∀ (fuel : Nat) (i : Int), i ≤ 0 → ∀ batches : List (List α),
      batchTextsRunGo b ts fuel i batches = none := by
  intro fuel
  induction fuel with
  | zero => intro i hi batches; rfl
  | succ n ih =>
    intro i hi batches
    have hlen : 1 ≤ ts.length := List.length_pos.mpr hts
    simp only [batchTextsRunGo]
    rw [if_pos (by omega)]
    exact ih (i + b) (by omega) _

theorem embedLoop_ok (call : Oracle) (it : String) (f : List String → List Vec) :
    ∀ (bs : List (List String)) (acc : List Vec),
      (∀ batch ∈ bs, call batch it = Except.ok (f batch)) →
      embedLoop call it bs acc =
        (Except.ok (acc ++ (bs.map f).flatten), bs.map (fun batch => (batch, it))) := by
  intro bs
  induction bs with
  | nil => intro acc h; simp [embedLoop]
  | cons batch rest ih =>
    intro acc h
    have hcall : call batch it = Except.ok (f batch) := h batch (by simp)
    simp only [embedLoop, hcall]
    rw [ih (acc ++ f batch) (fun x hx => h x (by simp [hx]))]
    simp [List.append_assoc]

theorem embedLoop_error (call : Oracle) (it : String) (e : String) :
    ∀ (pre : List (List String)) (bfail : List String) (post : List (List String))
      (acc : List Vec),
      (∀ batch ∈ pre, ∃ vs, call batch it = Except.ok vs) →
      call bfail it = Except.error e →
      embedLoop call it (pre ++ bfail :: post) acc =
        (Except.error e, (pre ++ [bfail]).map (fun batch => (batch, it))) := by
  intro pre
  induction pre with
  | nil =>
    intro bfail post acc hpre hfail
    simp [embedLoop, hfail]
  | cons batch rest ih =>
    intro bfail post acc hpre hfail
    obtain ⟨vs, hvs⟩ := hpre batch (by simp)
    simp only [List.cons_append, embedLoop, hvs, List.append_eq]
    rw [ih bfail post (acc ++ vs) (fun x hx => hpre x (by simp [hx])) hfail]
    simp

/-- Claim C7: `embedDocuments` applied to the empty list returns the empty
list immediately and issues zero remote calls; this case is not an error. -/
theorem embedDocuments_empty (call : Oracle) (batchSize : Nat) (itd : String) :
    embedDocuments call batchSize itd [] = (Except.ok [], []) := rfl

/-- Claim C8: the effective batch size is the minimum of the requested one
and 96, defaults to 96 when none is supplied, never exceeds 96, and a
requested batch size of 200 yields 96. -/
theorem effectiveBatchSize_clamp :
    (∀ requested : Int, effectiveBatchSize (some requested) = min requested 96) ∧
    effectiveBatchSize none = 96 ∧
    (∀ requested : Option Int, effectiveBatchSize requested ≤ 96) ∧
    effectiveBatchSize (some 200) = 96 := by
  refine ⟨fun r => rfl, rfl, fun r => min_le_right _ _, by decide⟩

/-- Claim C10: `embedQuery` takes the element at index 0 of the returned
vector list without a bounds check; when the remote call returns an empty
embeddings array the result is the absent value, not an error. -/
theorem embedQuery_empty_response (call : Oracle) (itq : String) (query : String)
    (h : call [query] itq = Except.ok []) :
    embedQuery call itq query = (Except.ok none, [([query], itq)]) := by
  simp [embedQuery, h]

/-- Witness for `embedQuery_empty_response` at a concrete oracle returning an
empty vector list. -/
theorem embedQuery_empty_response_witness :
    embedQuery (fun _ _ => Except.ok []) "search_query" "q" =
      (Except.ok none, [(["q"], "search_query")]) :=
  embedQuery_empty_response (fun _ _ => Except.ok []) "search_query" "q" rfl

/-- Claim C5: `embedQuery text` returns exactly the first element of the list
returned by `embedDocuments [text]` run with the query input type (errors
propagating identically); the one remote call of `embedQuery` uses the query
input type while the one of `embedDocuments` uses the document input type. -/
theorem embedQuery_embedDocuments (call : Oracle) (itd itq : String) (t : String)
    (b : Nat) (hb : 1 ≤ b) :
    (embedQuery call itq t).1 = Except.map List.head? (embedDocuments call b itq [t]).1 ∧
    (embedQuery call itq t).2 = [([t], itq)] ∧
    (embedDocuments call b itd [t]).2 = [([t], itd)] := by
  have hbt : batchTexts b [t] = [[t]] := by
    rw [batchTexts_eq_cons b hb [t] (by simp)]
    rw [List.take_of_length_le (by simpa using hb)]
    rw [List.drop_of_length_le (by simpa using hb)]
    rfl
  have hdoc : ∀ it, embedDocuments call b it [t] =
      (match call [t] it with
        | Except.error e => (Except.error e, [([t], it)])
        | Except.ok vs => (Except.ok vs, [([t], it)])) := by
    intro it
    simp only [embedDocuments, List.length_cons, List.length_nil]
    rw [if_neg (by simp), hbt]
    cases hcall : call [t] it with
    | error e => simp [embedLoop, hcall]
    | ok vs => simp [embedLoop, hcall]
  refine ⟨?_, ?_, ?_⟩
  · rw [hdoc itq]
    cases hcall : call [t] itq with
    | error e => simp [embedQuery, hcall, Except.map]
    | ok vs => simp [embedQuery, hcall, Except.map]
  · cases hcall : call [t] itq with
    | error e => simp [embedQuery, hcall]
    | ok vs => simp [embedQuery, hcall]
  · rw [hdoc itd]
    cases hcall : call [t] itd with
    | error e => simp [hcall]
    | ok vs => simp [hcall]

/-- A concrete oracle that always succeeds with one vector. -/
def callConstW : Oracle := fun _ _ => Except.ok [[1]]

/-- Witness for `embedQuery_embedDocuments` at a concrete oracle, query text
and batch size. -/
theorem embedQuery_embedDocuments_witness :
    (embedQuery callConstW "search_query" "q").1 =
      Except.map List.head? (embedDocuments callConstW 96 "search_query" ["q"]).1 :=
  (embedQuery_embedDocuments callConstW "search_document" "search_query" "q" 96
    (by decide)).1

/-- Claim C4: if each remote call returns exactly one vector per input string
of its batch, in batch order (modelled by a pointwise embedding function),
then `embedDocuments` on a non-empty input returns one vector per input
string in input order: the result is the pointwise image of the whole input
list, in particular of the same length. -/
theorem embedDocuments_length_order (call : Oracle) (b : Nat) (hb : 1 ≤ b)
    (itd : String) (embed : String → Vec) (docs : List String) (hne : docs ≠ [])
    (hcall : ∀ batch, call batch itd = Except.ok (batch.map embed)) :
    (embedDocuments call b itd docs).1 = Except.ok (docs.map embed) ∧
    (docs.map embed).length = docs.length := by
  constructor
  · simp only [embedDocuments]
    rw [if_neg (fun h => hne (List.length_eq_zero.mp h))]
    rw [embedLoop_ok call itd (fun batch => batch.map embed) _ []
      (fun batch _ => hcall batch)]
    simp only [List.nil_append]
    rw [← List.map_flatten, batchTexts_flatten b hb docs]
  · exact List.length_map _ _

/-- Witness for `embedDocuments_length_order` at a concrete pointwise oracle,
batch size 2 and a three-element input. -/
theorem embedDocuments_length_order_witness :
    (embedDocuments (fun batch _ => Except.ok (batch.map (fun _ => ([0] : Vec)))) 2
        "search_document" ["a", "b", "c"]).1 =
      Except.ok [[0], [0], [0]] :=
  (embedDocuments_length_order (fun batch _ => Except.ok (batch.map (fun _ => ([0] : Vec))))
    2 (by decide) "search_document" (fun _ => ([0] : Vec)) ["a", "b", "c"]
    (by decide) (fun batch => rfl)).1

/-- Claim C3: for batch size at least 1, `batchTexts` produces ceil(N/B)
contiguous chunks, each of length at most B, all but the last of length
exactly B, whose concatenation is the input in the original order; and
`embedDocuments` issues exactly one remote call per chunk when every call
succeeds. -/
theorem batchTexts_batching (b : Nat) (hb : 1 ≤ b) (ts : List String) :
    (batchTexts b ts).length = (ts.length + b - 1) / b ∧
    (∀ c ∈ batchTexts b ts, c.length ≤ b) ∧
    (∀ c ∈ (batchTexts b ts).dropLast, c.length = b) ∧
    (batchTexts b ts).flatten = ts ∧
    (∀ (call : Oracle) (itd : String) (f : List String → List Vec),
      (∀ batch ∈ batchTexts b ts, call batch itd = Except.ok (f batch)) → ts ≠ [] →
      (embedDocuments call b itd ts).2 =
        (batchTexts b ts).map (fun batch => (batch, itd))) := by
  refine ⟨batchTexts_length b hb ts, fun c hc => batchTexts_chunk_le b hb ts c hc,
    fun c hc => batchTexts_dropLast b hb ts c hc, batchTexts_flatten b hb ts, ?_⟩
  intro call itd f hcall hne
  simp only [embedDocuments]
  rw [if_neg (fun h => hne (List.length_eq_zero.mp h))]
  rw [embedLoop_ok call itd f _ [] hcall]

/-- Witness for `batchTexts_batching` at batch size 2 and a three-element
input. -/
theorem batchTexts_batching_witness :
    (batchTexts 2 ["a", "b", "c"]).flatten = ["a", "b", "c"] ∧
    (batchTexts 2 ["a", "b", "c"]).length = (3 + 2 - 1) / 2 :=
  ⟨(batchTexts_batching 2 (by decide) ["a", "b", "c"]).2.2.2.1,
    (batchTexts_batching 2 (by decide) ["a", "b", "c"]).1⟩

/-- Claim C2: when the batches of the input decompose into a succeeding
prefix, a failing batch and a remainder, `embedDocuments` fails as a whole
with that error — no partial vector list is returned — and the remote calls
issued are exactly the prefix plus the failing batch: none are issued for
the batches after the failing one. -/
theorem embedDocuments_all_or_nothing (call : Oracle) (b : Nat) (itd : String)
    (docs : List String) (pre : List (List String)) (bfail : List String)
    (post : List (List String)) (e : String)
    (hsplit : batchTexts b docs = pre ++ bfail :: post)
    (hpre : ∀ batch ∈ pre, ∃ vs, call batch itd = Except.ok vs)
    (hfail : call bfail itd = Except.error e) :
    embedDocuments call b itd docs =
      (Except.error e, (pre ++ [bfail]).map (fun batch => (batch, itd))) := by
  have hne : docs.length ≠ 0 := by
    intro h0
    have hdocs : docs = [] := List.length_eq_zero.mp h0
    subst hdocs
    rw [show batchTexts b ([] : List String) = [] from rfl] at hsplit
    cases pre with
    | nil => exact List.noConfusion hsplit
    | cons p ps => exact List.noConfusion hsplit
  simp only [embedDocuments]
  rw [if_neg hne, hsplit]
  exact embedLoop_error call itd e pre bfail post [] hpre hfail

/-- A concrete oracle failing exactly on the batch containing only the text
c, modelling retry-budget exhaustion for that batch. -/
def callFailC : Oracle := fun batch _ =>
  if batch = ["c"] then Except.error "retry budget exhausted" else Except.ok [[0]]

/-- Witness for `embedDocuments_all_or_nothing`: with batch size 1 and input
a b c d, the call on c fails, the whole operation fails, and no call is
issued for d. -/
theorem embedDocuments_all_or_nothing_witness :
    embedDocuments callFailC 1 "search_document" ["a", "b", "c", "d"] =
      (Except.error "retry budget exhausted",
        [(["a"], "search_document"), (["b"], "search_document"),
          (["c"], "search_document")]) := by
  have h := embedDocuments_all_or_nothing callFailC 1 "search_document"
    ["a", "b", "c", "d"] [["a"], ["b"]] ["c"] [["d"]] "retry budget exhausted" rfl
    (by
      intro batch hmem
      fin_cases hmem
      · exact ⟨[[0]], rfl⟩
      · exact ⟨[[0]], rfl⟩) rfl
  simpa using h

/-- Claim C9 (implicit): the constructor clamps the requested batch size only
from above, so a non-positive request stays non-positive; with a non-positive
batch size the source batching loop does not terminate on any non-empty
input (no amount of fuel finishes it), while for every batch size at least 1
it terminates on every input, producing exactly the chunks of `batchTexts`. -/
theorem batchSize_positivity_termination :
    (∀ requested : Int, requested ≤ 0 → effectiveBatchSize (some requested) = requested) ∧
    (∀ (bneg : Int) (ts : List String), bneg ≤ 0 → ts ≠ [] →
      ∀ fuel : Nat, batchTextsRun bneg ts fuel = none) ∧
    (∀ (b : Nat) (ts : List String), 1 ≤ b →
      ∃ fuel : Nat, batchTextsRun (b : Int) ts fuel = some (batchTexts b ts)) := by
  refine ⟨?_, ?_, ?_⟩
  · intro r hr
    simp only [effectiveBatchSize, Option.getD_some]
    exact min_eq_left (by omega)
  · intro bneg ts hneg hne fuel
    exact batchTextsRunGo_none bneg hneg ts hne fuel 0 le_rfl []
  · intro b ts hb
    exact ⟨ts.length + 1, batchTextsRun_agree b hb ts⟩

/-- Witness for `batchSize_positivity_termination`: a requested batch size of
minus three is not clamped from below, and with batch size zero the loop is
still unfinished after five iterations on a one-element input. -/
theorem batchSize_positivity_termination_witness :
    effectiveBatchSize (some (-3)) = -3 ∧ batchTextsRun 0 ["a"] 5 = none :=
  ⟨batchSize_positivity_termination.1 (-3) (by decide),
    batchSize_positivity_termination.2.1 0 ["a"] (by decide) (by decide) 5⟩

/-- Claim C6: the command built for a batch is addressed to the configured
model identifier and its body is exactly the cleaned texts, the given input
type tag and the configured truncation policy; cleaning replaces every
newline character by a single space, preserving length and leaving every
other character unchanged. -/
theorem invokeCohere_request (model trunc tag : String) (texts : List String) :
    (invokeCohereCommand model trunc texts tag).modelId = model ∧
    (invokeCohereCommand model trunc texts tag).body.input_type = tag ∧
    (invokeCohereCommand model trunc texts tag).body.truncate = trunc ∧
    (invokeCohereCommand model trunc texts tag).body.texts = texts.map cleanText ∧
    (∀ s : String, (cleanText s).data.length = s.data.length) ∧
    (∀ s : String, ∀ c ∈ (cleanText s).data, c ≠ '\n') ∧
    (∀ (s : String) (i : Nat), i < s.data.length →
      (cleanText s).data.getD i ' ' =
        if s.data.getD i ' ' = '\n' then ' ' else s.data.getD i ' ') := by
  refine ⟨rfl, rfl, rfl, rfl, ?_, ?_, ?_⟩
  · intro s
    simp [cleanText]
  · intro s c hc
    simp only [cleanText] at hc
    obtain ⟨a, ha, rfl⟩ := List.mem_map.mp hc
    by_cases h : a = '\n' <;> simp [h]
  · intro s i hi
    show (s.data.map (fun c => if c = '\n' then ' ' else c)).getD i ' ' = _
    rw [List.getD_eq_getElem?_getD, List.getElem?_map, List.getElem?_eq_getElem hi,
      List.getD_eq_getElem?_getD, List.getElem?_eq_getElem hi]
    rfl

/-- Witness for `invokeCohere_request` at a concrete model, policy and text
containing a newline. -/
theorem invokeCohere_request_witness :
    (invokeCohereCommand "cohere.embed-english-v3" "END" ["a\nb"]
        "search_document").modelId = "cohere.embed-english-v3" ∧
    (cleanText "a\nb").data.getD 1 ' ' = ' ' := by
  refine ⟨(invokeCohere_request "cohere.embed-english-v3" "END" "search_document"
    ["a\nb"]).1, ?_⟩
  have h := (invokeCohere_request "cohere.embed-english-v3" "END" "search_document"
    ["a\nb"]).2.2.2.2.2.2 "a\nb" 1 (by decide)
  rw [h]
  decide

/-- Claim C1 counterexample: for the parsed response whose `embeddings` field
is JSON null — a shape that is neither a float-keyed object nor an array —
`extractEmbeddings` raises a bare type error from the membership operator,
not the fatal error carrying the raw serialized response that the claim
describes for every other shape. -/
theorem extractEmbeddings_null_counterexample :
    extractEmbeddings (Json.obj [("embeddings", Json.null)]) =
      Except.error
        (JsError.typeError "Cannot use the membership operator to search for float") ∧
    extractEmbeddings (Json.obj [("embeddings", Json.null)]) ≠
      Except.error (unexpectedFormatError (Json.obj [("embeddings", Json.null)])) := by
  constructor
  · rfl
  · intro h
    rw [show extractEmbeddings (Json.obj [("embeddings", Json.null)]) =
        Except.error
          (JsError.typeError "Cannot use the membership operator to search for float")
      from rfl] at h
    simp [unexpectedFormatError] at h

/-- Claim C1 amended: if the `embeddings` field is an object containing a
`float` key, `extractEmbeddings` returns that field; if it is an array, it
returns it directly; for any other shape it raises a fatal error — the error
carries the raw serialized response, except when the response itself or its
`embeddings` field is null, in which case a bare type error from property
access or the membership operator is raised instead. -/
theorem extractEmbeddings_shape (r : Json) :
    (r = Json.null →
      extractEmbeddings r =
        Except.error
          (JsError.typeError "Cannot read properties of null, reading embeddings")) ∧
    (∀ fs v, embeddingsOf r = some (Json.obj fs) → lookupField fs "float" = some v →
      extractEmbeddings r = Except.ok v) ∧
    (∀ xs, embeddingsOf r = some (Json.arr xs) →
      extractEmbeddings r = Except.ok (Json.arr xs)) ∧
    (embeddingsOf r = some Json.null →
      extractEmbeddings r =
        Except.error
          (JsError.typeError "Cannot use the membership operator to search for float")) ∧
    (r ≠ Json.null →
      (match embeddingsOf r with
        | some (Json.obj fs) => lookupField fs "float" = none
        | some (Json.arr _) => False
        | some Json.null => False
        | _ => True) →
      extractEmbeddings r = Except.error (unexpectedFormatError r)) := by
  refine ⟨?_, ?_, ?_, ?_, ?_⟩
  · intro h
    subst h
    rfl
  · intro fs v h1 h2
    cases r with
    | null => simp [embeddingsOf] at h1
    | bool x => simp [embeddingsOf] at h1
    | num x => simp [embeddingsOf] at h1
    | str x => simp [embeddingsOf] at h1
    | arr xs => simp [embeddingsOf] at h1
    | obj rfields =>
      simp only [embeddingsOf] at h1
      simp [extractEmbeddings, getProp, h1, jsTypeofObject, jsIsArray, jsInFloat, h2]
  · intro xs h1
    cases r with
    | null => simp [embeddingsOf] at h1
    | bool x => simp [embeddingsOf] at h1
    | num x => simp [embeddingsOf] at h1
    | str x => simp [embeddingsOf] at h1
    | arr ys => simp [embeddingsOf] at h1
    | obj rfields =>
      simp only [embeddingsOf] at h1
      simp [extractEmbeddings, getProp, h1, jsTypeofObject, jsIsArray, jsInFloat]
  · intro h1
    cases r with
    | null => simp [embeddingsOf] at h1
    | bool x => simp [embeddingsOf] at h1
    | num x => simp [embeddingsOf] at h1
    | str x => simp [embeddingsOf] at h1
    | arr xs => simp [embeddingsOf] at h1
    | obj rfields =>
      simp only [embeddingsOf] at h1
      simp [extractEmbeddings, getProp, h1, jsTypeofObject, jsIsArray, jsInFloat]
  · intro hr hm
    cases r with
    | null => exact absurd rfl hr
    | bool x => simp [extractEmbeddings, getProp, jsTypeofObject, jsIsArray]
    | num x => simp [extractEmbeddings, getProp, jsTypeofObject, jsIsArray]
    | str x => simp [extractEmbeddings, getProp, jsTypeofObject, jsIsArray]
    | arr xs => simp [extractEmbeddings, getProp, jsTypeofObject, jsIsArray]
    | obj rfields =>
      cases hemb : lookupField rfields "embeddings" with
      | none =>
        simp [extractEmbeddings, getProp, hemb, jsTypeofObject, jsIsArray]
      | some j =>
        cases j with
        | null =>
          simp only [embeddingsOf, hemb] at hm
        | bool x =>
          simp [extractEmbeddings, getProp, hemb, jsTypeofObject, jsIsArray]
        | num x =>
          simp [extractEmbeddings, getProp, hemb, jsTypeofObject, jsIsArray]
        | str x =>
          simp [extractEmbeddings, getProp, hemb, jsTypeofObject, jsIsArray]
        | arr xs =>
          simp only [embeddingsOf, hemb] at hm
        | obj fs =>
          simp only [embeddingsOf, hemb] at hm
          simp [extractEmbeddings, getProp, hemb, jsTypeofObject, jsIsArray, jsInFloat, hm]

/-- Witness for `extractEmbeddings_shape` at concrete responses of both known
shapes. -/
theorem extractEmbeddings_shape_witness :
    extractEmbeddings
        (Json.obj [("embeddings", Json.obj [("float", Json.arr [Json.arr [Json.num 1]])])]) =
      Except.ok (Json.arr [Json.arr [Json.num 1]]) ∧
    extractEmbeddings (Json.obj [("embeddings", Json.arr [Json.arr [Json.num 2]])]) =
      Except.ok (Json.arr [Json.arr [Json.num 2]]) :=
  ⟨(extractEmbeddings_shape
      (Json.obj
        [("embeddings", Json.obj [("float", Json.arr [Json.arr [Json.num 1]])])])).2.1
      [("float", Json.arr [Json.arr [Json.num 1]])] (Json.arr [Json.arr [Json.num 1]])
      rfl rfl,
    (extractEmbeddings_shape
      (Json.obj [("embeddings", Json.arr [Json.arr [Json.num 2]])])).2.2.1
      [Json.arr [Json.num 2]] rfl⟩

end CohereBedrockEmbeddings
